import Mathlib

/-!
Verification of the LaTeX-escaping pipeline of `scripts/generate_pdf.py`.

Strings are modelled as `List Char`.  `replaceAll` embeds Python's
`str.replace` (leftmost, non-overlapping scan).  `reSub c repl` embeds
`re.sub(r'(?<!\\)C', repl, text)` for a single character `C`: a match is a
position holding `c` whose preceding character in the scanned string is not a
backslash.  The YAML data model is the mutually inductive `Value` /
`ValueList` / `KVList`.
-/

/-- Bool test: is `t` a leading segment of `s`? -/
def pfx : List Char → List Char → Bool
  | [], _ => true
  | _ :: _, [] => false
  | a :: as, b :: bs => a == b && pfx as bs

/-- Bool test: does `t` occur contiguously inside `s`? -/
def hasSub (t : List Char) : List Char → Bool
  | [] => pfx t []
  | x :: xs => pfx t (x :: xs) || hasSub t xs

/-- Fuelled worker for `replaceAll`; one unit of fuel per consumed character. -/
def replAux (t r : List Char) : Nat → List Char → List Char
  | _, [] => []
  | 0, s => s
  | n + 1, x :: xs =>
    if pfx t (x :: xs) then r ++ replAux t r n (List.drop (t.length - 1) xs)
    else x :: replAux t r n xs

/-- Embedding of Python `s.replace(t, r)` for a nonempty needle `t`:
scan left to right, replacing each leftmost occurrence of `t` by `r`. -/
def replaceAll (t r s : List Char) : List Char :=
  replAux t r s.length s

/-- One pass of `re.sub` with pattern `(?<!\\)c` and literal replacement
`repl`; `p` is the character preceding the scan position in the input. -/
def subst1 (c : Char) (repl : List Char) : Option Char → List Char → List Char
  | _, [] => []
  | p, x :: xs =>
    if x = c ∧ p ≠ some '\\' then repl ++ subst1 c repl (some x) xs
    else x :: subst1 c repl (some x) xs

/-- Embedding of `re.sub(rf'(?<!\\){re.escape(char)}', replacement, text)`. -/
def reSub (c : Char) (repl : List Char) (s : List Char) : List Char :=
  subst1 c repl none s

/-- The `LATEX_REPLACEMENTS` table, with each Python `re.sub` replacement
template already resolved to the literal text it inserts. -/
def LATEX_REPLACEMENTS : List (Char × List Char) :=
  [('&', "\\&".toList),
   ('%', "\\%".toList),
   ('$', "\\$".toList),
   ('#', "\\#".toList),
   ('_', "\\_".toList),
   ('\x7b', "\\\x7b".toList),
   ('\x7d', "\\\x7d".toList),
   ('~', "\\textasciitilde\x7b\x7d".toList),
   ('^', "\\textasciicircum\x7b\x7d".toList)]

/-- The sentinel `BACKSLASH_TOKEN`. -/
def BACKSLASH_TOKEN : List Char := "<<<UNIQUE-BACKSLASH-TOKEN>>>".toList

/-- The literal LaTeX rendering of a backslash, inserted by
`backslash_escape`. -/
def TEXTBACKSLASH : List Char := "\\textbackslash\x7b\x7d".toList

/-- Apply the substitutions of a replacement table in list order. -/
def applySubs (order : List (Char × List Char)) (s : List Char) : List Char :=
  order.foldl (fun t cr => reSub cr.1 cr.2 t) s

/-- Embedding of `latex_escape` on strings: the nine substitutions in the
fixed order of `LATEX_REPLACEMENTS`. -/
def latex_escape (s : List Char) : List Char :=
  applySubs LATEX_REPLACEMENTS s

mutual
/-- The YAML data model: strings, numbers, booleans, null, sequences,
mappings (with string keys, as produced by the configuration parser). -/
inductive Value where
  | vStr : List Char → Value
  | vInt : Int → Value
  | vBool : Bool → Value
  | vNull : Value
  | vSeq : ValueList → Value
  | vMap : KVList → Value
  deriving DecidableEq
/-- A list of values (a YAML sequence). -/
inductive ValueList where
  | nil : ValueList
  | cons : Value → ValueList → ValueList
  deriving DecidableEq
/-- An association list of key/value pairs (a YAML mapping). -/
inductive KVList where
  | nil : KVList
  | cons : List Char → Value → KVList → KVList
  deriving DecidableEq
end

mutual
/-- Embedding of `backslash_escape`: recursively replace the sentinel token
by `\textbackslash` braces in every string leaf; keys and non-strings pass
through. -/
def backslash_escape : Value → Value
  | .vStr s => .vStr (replaceAll BACKSLASH_TOKEN TEXTBACKSLASH s)
  | .vInt n => .vInt n
  | .vBool b => .vBool b
  | .vNull => .vNull
  | .vSeq l => .vSeq (bsList l)
  | .vMap m => .vMap (bsMap m)
/-- `backslash_escape` mapped over a sequence. -/
def bsList : ValueList → ValueList
  | .nil => .nil
  | .cons v t => .cons (backslash_escape v) (bsList t)
/-- `backslash_escape` mapped over the values of a mapping. -/
def bsMap : KVList → KVList
  | .nil => .nil
  | .cons k v t => .cons k (backslash_escape v) (bsMap t)
end

mutual
/-- Embedding of `escape_yaml`: strings have their backslashes replaced by
the sentinel and are then LaTeX-escaped; containers recurse and then run
`backslash_escape` over the whole intermediate structure; other scalars pass
through. -/
def escape_yaml : Value → Value
  | .vStr s => .vStr (latex_escape (replaceAll ['\\'] BACKSLASH_TOKEN s))
  | .vInt n => .vInt n
  | .vBool b => .vBool b
  | .vNull => .vNull
  | .vSeq l => backslash_escape (.vSeq (escList l))
  | .vMap m => backslash_escape (.vMap (escMap m))
/-- `escape_yaml` mapped over a sequence. -/
def escList : ValueList → ValueList
  | .nil => .nil
  | .cons v t => .cons (escape_yaml v) (escList t)
/-- `escape_yaml` mapped over the values of a mapping. -/
def escMap : KVList → KVList
  | .nil => .nil
  | .cons k v t => .cons k (escape_yaml v) (escMap t)
end

mutual
/-- The structural shape of a `Value`: string leaves are erased, everything
else (keys, order, lengths, scalar payloads, kinds) is kept. -/
inductive Shape where
  | hStr : Shape
  | hInt : Int → Shape
  | hBool : Bool → Shape
  | hNull : Shape
  | hSeq : ShapeList → Shape
  | hMap : KShapeList → Shape
  deriving DecidableEq
/-- Shapes of a sequence. -/
inductive ShapeList where
  | nil : ShapeList
  | cons : Shape → ShapeList → ShapeList
  deriving DecidableEq
/-- Shapes of a mapping, keys kept. -/
inductive KShapeList where
  | nil : KShapeList
  | cons : List Char → Shape → KShapeList → KShapeList
  deriving DecidableEq
end

mutual
/-- Shape of a value. -/
def shapeV : Value → Shape
  | .vStr _ => .hStr
  | .vInt n => .hInt n
  | .vBool b => .hBool b
  | .vNull => .hNull
  | .vSeq l => .hSeq (shapeL l)
  | .vMap m => .hMap (shapeM m)
/-- Shapes of the members of a sequence. -/
def shapeL : ValueList → ShapeList
  | .nil => .nil
  | .cons v t => .cons (shapeV v) (shapeL t)
/-- Shapes of the entries of a mapping. -/
def shapeM : KVList → KShapeList
  | .nil => .nil
  | .cons k v t => .cons k (shapeV v) (shapeM t)
end

/-- The completed-process data `main` inspects after running the external
compiler: completion status and the two captured output streams. -/
structure RunResult where
  returncode : Int
  stdout : List Char
  stderr : List Char

/-- The fixed failure banner printed by `main`. -/
def compileFailMsg : List Char := "LaTeX compilation failed:\n".toList

/-- Embedding of the tail of `main` after the `subprocess.run` call: on a
non-zero status it prints the banner and both captured streams and raises
`SystemExit(1)`; on a zero status it prints nothing and falls off the end of
the function. The first component lists the printed strings in order; the
second is the termination outcome, `Except.error` carrying the exit code. -/
def mainAfterCompile (result : RunResult) : List (List Char) × Except Int Unit :=
  if result.returncode ≠ 0 then
    ([compileFailMsg, result.stdout, result.stderr], Except.error 1)
  else
    ([], Except.ok ())

/-- Is the value a container (mapping or sequence) at top level? -/
def isCont : Value → Bool
  | .vSeq _ => true
  | .vMap _ => true
  | _ => false

mutual
/-- No string leaf and no mapping key anywhere in the value contains the
sentinel token. -/
def noTokV : Value → Bool
  | .vStr s => !hasSub BACKSLASH_TOKEN s
  | .vInt _ => true
  | .vBool _ => true
  | .vNull => true
  | .vSeq l => noTokL l
  | .vMap m => noTokM m
/-- `noTokV` over a sequence. -/
def noTokL : ValueList → Bool
  | .nil => true
  | .cons v t => noTokV v && noTokL t
/-- `noTokV` over a mapping, keys included. -/
def noTokM : KVList → Bool
  | .nil => true
  | .cons k v t => !hasSub BACKSLASH_TOKEN k && noTokV v && noTokM t
end

mutual
/-- No mapping key anywhere in the value contains the sentinel token
(string leaves are unconstrained). -/
def keysOK : Value → Bool
  | .vStr _ => true
  | .vInt _ => true
  | .vBool _ => true
  | .vNull => true
  | .vSeq l => keysOKL l
  | .vMap m => keysOKM m
/-- `keysOK` over a sequence. -/
def keysOKL : ValueList → Bool
  | .nil => true
  | .cons v t => keysOK v && keysOKL t
/-- `keysOK` over a mapping. -/
def keysOKM : KVList → Bool
  | .nil => true
  | .cons k v t => !hasSub BACKSLASH_TOKEN k && keysOK v && keysOKM t
end

mutual
/-- `backslash_escape` preserves shape. -/
theorem shape_bsV : (v : Value) → shapeV (backslash_escape v) = shapeV v
  | .vStr _ => rfl
  | .vInt _ => rfl
  | .vBool _ => rfl
  | .vNull => rfl
  | .vSeq l => congrArg Shape.hSeq (shape_bsL l)
  | .vMap m => congrArg Shape.hMap (shape_bsM m)
/-- `bsList` preserves shape. -/
theorem shape_bsL : (l : ValueList) → shapeL (bsList l) = shapeL l
  | .nil => rfl
  | .cons v t => by
    simp only [bsList, shapeL, shape_bsV v, shape_bsL t]
/-- `bsMap` preserves shape. -/
theorem shape_bsM : (m : KVList) → shapeM (bsMap m) = shapeM m
  | .nil => rfl
  | .cons k v t => by
    simp only [bsMap, shapeM, shape_bsV v, shape_bsM t]
end

mutual
/-- `escape_yaml` preserves shape. -/
theorem shape_escV : (v : Value) → shapeV (escape_yaml v) = shapeV v
  | .vStr _ => rfl
  | .vInt _ => rfl
  | .vBool _ => rfl
  | .vNull => rfl
  | .vSeq l => by
    show shapeV (backslash_escape (Value.vSeq (escList l))) = shapeV (Value.vSeq l)
    rw [shape_bsV]
    simp only [shapeV, shape_escL l]
  | .vMap m => by
    show shapeV (backslash_escape (Value.vMap (escMap m))) = shapeV (Value.vMap m)
    rw [shape_bsV]
    simp only [shapeV, shape_escM m]
/-- `escList` preserves shape. -/
theorem shape_escL : (l : ValueList) → shapeL (escList l) = shapeL l
  | .nil => rfl
  | .cons v t => by
    simp only [escList, shapeL, shape_escV v, shape_escL t]
/-- `escMap` preserves shape. -/
theorem shape_escM : (m : KVList) → shapeM (escMap m) = shapeM m
  | .nil => rfl
  | .cons k v t => by
    simp only [escMap, shapeM, shape_escV v, shape_escM t]
end

/-- Two lookbehind substitutions whose replacements are a backslash followed
by the substituted character commute, for distinct non-backslash characters:
neither can create or destroy a match of the other. -/
theorem subst1_comm (c d : Char) (hcd : c ≠ d) (hc : c ≠ '\\') (hd : d ≠ '\\') :
    ∀ (s : List Char) (p : Option Char),
      subst1 c ['\\', c] p (subst1 d ['\\', d] p s)
        = subst1 d ['\\', d] p (subst1 c ['\\', c] p s) := by
  intro s
  induction s with
  | nil => intro p; rfl
  | cons x xs ih =>
    intro p
    by_cases hxc : x = c
    · subst hxc
      by_cases hp : p = some '\\'
      · simp only [subst1, hp, ne_eq, not_true_eq_false, and_false, if_false,
          hcd, false_and]
        exact congrArg (List.cons x) (ih (some x))
      · simp only [subst1, hcd, false_and, if_false, ne_eq, hp,
          not_false_eq_true, and_true, if_true, hd, hc, Ne.symm hd, and_self,
          List.cons_append, List.nil_append]
        exact congrArg (List.cons '\\') (congrArg (List.cons x) (ih (some x)))
    · by_cases hxd : x = d
      · subst hxd
        by_cases hp : p = some '\\'
        · simp only [subst1, hp, ne_eq, not_true_eq_false, and_false, if_false,
            hxc, false_and]
          exact congrArg (List.cons x) (ih (some x))
        · simp only [subst1, hxc, false_and, if_false, ne_eq, hp,
            not_false_eq_true, and_true, if_true, hd, hc, Ne.symm hc, and_self,
            List.cons_append, List.nil_append, Ne.symm hcd]
          exact congrArg (List.cons '\\') (congrArg (List.cons x) (ih (some x)))
      · simp only [subst1, hxc, hxd, false_and, if_false]
        exact congrArg (List.cons x) (ih (some x))

/-- The fuelled worker is fuel-invariant once the fuel covers the input
length. -/
theorem replAux_fuel (t r : List Char) :
    ∀ (n m : Nat) (s : List Char), s.length ≤ n → s.length ≤ m →
      replAux t r n s = replAux t r m s := by
  intro n
  induction n with
  | zero =>
    intro m s hn _
    have : s = [] := List.eq_nil_of_length_eq_zero (Nat.le_zero.mp hn)
    subst this
    cases m <;> rfl
  | succ n ih =>
    intro m s hn hm
    cases s with
    | nil => cases m <;> rfl
    | cons x xs =>
      cases m with
      | zero => exact absurd hm (by simp)
      | succ m =>
        simp only [replAux]
        by_cases h : pfx t (x :: xs) = true
        · simp only [h, if_true]
          have hlen : (List.drop (t.length - 1) xs).length ≤ xs.length := by
            simp [List.length_drop]
          exact congrArg (r ++ ·)
            (ih m (List.drop (t.length - 1) xs)
              (Nat.le_trans hlen (Nat.le_of_succ_le_succ hn))
              (Nat.le_trans hlen (Nat.le_of_succ_le_succ hm)))
        · simp only [h, if_false, Bool.false_eq_true]
          exact congrArg (x :: ·)
            (ih m xs (Nat.le_of_succ_le_succ hn) (Nat.le_of_succ_le_succ hm))

/-- Unfolding `replaceAll` at a match position. -/
theorem replaceAll_pos (t r : List Char) (x : Char) (xs : List Char)
    (h : pfx t (x :: xs) = true) :
    replaceAll t r (x :: xs)
      = r ++ replaceAll t r (List.drop (t.length - 1) xs) := by
  simp only [replaceAll, List.length_cons, replAux, h, if_true]
  refine congrArg (r ++ ·) (replAux_fuel t r xs.length _ _ ?_ le_rfl)
  simp [List.length_drop]

/-- Unfolding `replaceAll` at a non-match position. -/
theorem replaceAll_neg (t r : List Char) (x : Char) (xs : List Char)
    (h : pfx t (x :: xs) = false) :
    replaceAll t r (x :: xs) = x :: replaceAll t r xs := by
  simp only [replaceAll, List.length_cons, replAux, h, if_false,
    Bool.false_eq_true]

/-- A list whose characters avoid `r` and that is a leading segment of the
output of the replacement worker is already a leading segment of its input:
replacement can only ever put characters of `r` in front of surviving input
characters. -/
theorem pfx_replAux (t r : List Char) (hr : r ≠ []) :
    ∀ (n : Nat) (w u : List Char), w.length ≤ n →
      (∀ a ∈ u, a ∉ r) → pfx u (replAux t r n w) = true → pfx u w = true := by
  intro n
  induction n with
  | zero =>
    intro w u hn _ hp
    have : w = [] := List.eq_nil_of_length_eq_zero (Nat.le_zero.mp hn)
    subst this
    exact hp
  | succ n ih =>
    intro w u hn hu hp
    cases w with
    | nil => exact hp
    | cons x xs =>
      simp only [replAux] at hp
      by_cases h : pfx t (x :: xs) = true
      · simp only [h, if_true] at hp
        cases u with
        | nil => rfl
        | cons a u' =>
          cases r with
          | nil => exact absurd rfl hr
          | cons rc r' =>
            simp only [List.cons_append, pfx, Bool.and_eq_true, beq_iff_eq] at hp
            exact absurd (hp.1 ▸ List.mem_cons_self rc r')
              (hu a (List.mem_cons_self a u'))
      · simp only [h, if_false, Bool.false_eq_true] at hp
        cases u with
        | nil => rfl
        | cons a u' =>
          simp only [pfx, Bool.and_eq_true, beq_iff_eq] at hp ⊢
          exact ⟨hp.1, ih xs u' (Nat.le_of_succ_le_succ hn)
            (fun b hb => hu b (List.mem_cons_of_mem a hb)) hp.2⟩

/-- Occurrence search skips over a block whose characters all differ from the
head of the needle. -/
theorem hasSub_append_left (t0 : Char) (t' : List Char) :
    ∀ (a b : List Char), t0 ∉ a →
      hasSub (t0 :: t') (a ++ b) = hasSub (t0 :: t') b := by
  intro a
  induction a with
  | nil => intro b _; rfl
  | cons y ys ih =>
    intro b hy
    have hne : (t0 == y) = false :=
      beq_eq_false_iff_ne.mpr (fun h => hy (h ▸ List.mem_cons_self y ys))
    show hasSub (t0 :: t') (y :: (ys ++ b)) = hasSub (t0 :: t') b
    simp only [hasSub, pfx, hne, Bool.false_and, Bool.false_or]
    exact ih b (fun h => hy (List.mem_cons_of_mem y h))

/-- After replacing every occurrence of `t` by `r`, no occurrence of `t`
remains, provided `t` and `r` share no character. -/
theorem hasSub_replAux (t r : List Char) (ht : t ≠ []) (hr : r ≠ [])
    (hdisj : ∀ a ∈ t, a ∉ r) :
    ∀ (n : Nat) (w : List Char), w.length ≤ n →
      hasSub t (replAux t r n w) = false := by
  intro n
  induction n with
  | zero =>
    intro w hn
    have : w = [] := List.eq_nil_of_length_eq_zero (Nat.le_zero.mp hn)
    subst this
    cases t with
    | nil => exact absurd rfl ht
    | cons t0 t' => rfl
  | succ n ih =>
    intro w hn
    cases w with
    | nil =>
      cases t with
      | nil => exact absurd rfl ht
      | cons t0 t' => rfl
    | cons x xs =>
      simp only [replAux]
      cases t with
      | nil => exact absurd rfl ht
      | cons t0 t' =>
        by_cases h : pfx (t0 :: t') (x :: xs) = true
        · simp only [h, if_true]
          have ht0r : t0 ∉ r := hdisj t0 (List.mem_cons_self t0 t')
          rw [hasSub_append_left t0 t' r _ ht0r]
          exact ih (List.drop ((t0 :: t').length - 1) xs)
            (Nat.le_trans (by simp [List.length_drop])
              (Nat.le_of_succ_le_succ hn))
        · simp only [h, if_false, Bool.false_eq_true]
          simp only [hasSub, Bool.or_eq_false_iff]
          refine ⟨?_, ih xs (Nat.le_of_succ_le_succ hn)⟩
          by_contra hcon
          have hp : pfx (t0 :: t') (x :: replAux (t0 :: t') r n xs) = true := by
            revert hcon
            cases hq : pfx (t0 :: t') (x :: replAux (t0 :: t') r n xs) <;> simp
          simp only [pfx, Bool.and_eq_true, beq_iff_eq] at hp
          have hpx : pfx t' xs = true :=
            pfx_replAux (t0 :: t') r hr n xs t'
              (Nat.le_of_succ_le_succ hn)
              (fun b hb => hdisj b (List.mem_cons_of_mem t0 hb)) hp.2
          have : pfx (t0 :: t') (x :: xs) = true := by
            simp [pfx, hp.1, hpx]
          exact h this

/-- Replacing the sentinel token by `\textbackslash` braces leaves no
occurrence of the token, since the two share no character. -/
theorem hasSub_token_replaceAll (s : List Char) :
    hasSub BACKSLASH_TOKEN (replaceAll BACKSLASH_TOKEN TEXTBACKSLASH s)
      = false :=
  hasSub_replAux BACKSLASH_TOKEN TEXTBACKSLASH (by decide) (by decide)
    (by decide) s.length s le_rfl

mutual
/-- `backslash_escape` does not touch mapping keys. -/
theorem keysOK_bsV : (v : Value) → keysOK (backslash_escape v) = keysOK v
  | .vStr _ => rfl
  | .vInt _ => rfl
  | .vBool _ => rfl
  | .vNull => rfl
  | .vSeq l => keysOK_bsL l
  | .vMap m => keysOK_bsM m
/-- `bsList` does not touch mapping keys. -/
theorem keysOK_bsL : (l : ValueList) → keysOKL (bsList l) = keysOKL l
  | .nil => rfl
  | .cons v t => by
    simp only [bsList, keysOKL, keysOK_bsV v, keysOK_bsL t]
/-- `bsMap` does not touch mapping keys. -/
theorem keysOK_bsM : (m : KVList) → keysOKM (bsMap m) = keysOKM m
  | .nil => rfl
  | .cons k v t => by
    simp only [bsMap, keysOKM, keysOK_bsV v, keysOK_bsM t]
end

mutual
/-- `escape_yaml` does not touch mapping keys. -/
theorem keysOK_escV : (v : Value) → keysOK (escape_yaml v) = keysOK v
  | .vStr _ => rfl
  | .vInt _ => rfl
  | .vBool _ => rfl
  | .vNull => rfl
  | .vSeq l => by
    show keysOK (backslash_escape (Value.vSeq (escList l)))
      = keysOK (Value.vSeq l)
    rw [keysOK_bsV]
    simp only [keysOK, keysOK_escL l]
  | .vMap m => by
    show keysOK (backslash_escape (Value.vMap (escMap m)))
      = keysOK (Value.vMap m)
    rw [keysOK_bsV]
    simp only [keysOK, keysOK_escM m]
/-- `escList` does not touch mapping keys. -/
theorem keysOK_escL : (l : ValueList) → keysOKL (escList l) = keysOKL l
  | .nil => rfl
  | .cons v t => by
    simp only [escList, keysOKL, keysOK_escV v, keysOK_escL t]
/-- `escMap` does not touch mapping keys. -/
theorem keysOK_escM : (m : KVList) → keysOKM (escMap m) = keysOKM m
  | .nil => rfl
  | .cons k v t => by
    simp only [escMap, keysOKM, keysOK_escV v, keysOK_escM t]
end

mutual
/-- After `backslash_escape`, no sentinel token remains in any string leaf,
and none remains in keys provided none was there to begin with. -/
theorem noTok_bsV : (v : Value) → keysOK v = true →
    noTokV (backslash_escape v) = true
  | .vStr s, _ => by
    simp only [backslash_escape, noTokV, hasSub_token_replaceAll s,
      Bool.not_false]
  | .vInt _, _ => rfl
  | .vBool _, _ => rfl
  | .vNull, _ => rfl
  | .vSeq l, h => noTok_bsL l h
  | .vMap m, h => noTok_bsM m h
/-- Sequence version of `noTok_bsV`. -/
theorem noTok_bsL : (l : ValueList) → keysOKL l = true →
    noTokL (bsList l) = true
  | .nil, _ => rfl
  | .cons v t, h => by
    simp only [keysOKL, Bool.and_eq_true] at h
    simp only [bsList, noTokL, Bool.and_eq_true]
    exact ⟨noTok_bsV v h.1, noTok_bsL t h.2⟩
/-- Mapping version of `noTok_bsV`. -/
theorem noTok_bsM : (m : KVList) → keysOKM m = true →
    noTokM (bsMap m) = true
  | .nil, _ => rfl
  | .cons k v t, h => by
    simp only [keysOKM, Bool.and_eq_true] at h
    simp only [bsMap, noTokM, Bool.and_eq_true]
    exact ⟨⟨h.1.1, noTok_bsV v h.1.2⟩, noTok_bsM t h.2⟩
end

/-- A mapping or sequence with token-free keys comes out of `escape_yaml`
with no sentinel token anywhere. -/
theorem noTok_escV (v : Value) (hc : isCont v = true) (hk : keysOK v = true) :
    noTokV (escape_yaml v) = true := by
  cases v with
  | vStr s => simp [isCont] at hc
  | vInt n => simp [isCont] at hc
  | vBool b => simp [isCont] at hc
  | vNull => simp [isCont] at hc
  | vSeq l =>
    show noTokV (backslash_escape (Value.vSeq (escList l))) = true
    exact noTok_bsV (Value.vSeq (escList l)) ((keysOK_escL l).trans hk)
  | vMap m =>
    show noTokV (backslash_escape (Value.vMap (escMap m))) = true
    exact noTok_bsV (Value.vMap (escMap m)) ((keysOK_escM m).trans hk)

/-- Claim C1: for every nested value composed of mappings, sequences,
strings and non-string scalars, `escape_yaml` preserves the structural
shape — the same mapping keys, the same sequence lengths and element order,
and the same kind at every position; only string leaves may differ. -/
theorem c1_escape_yaml_preserves_shape :
    ∀ v : Value, shapeV (escape_yaml v) = shapeV v :=
  shape_escV

/-- Claim C2, counterexample: escaping the mapping with value the four
characters `5 0 backslash percent` does not return the mapping unchanged. -/
theorem c2_counterexample :
    escape_yaml (Value.vMap (.cons "a".toList (.vStr "50\\%".toList) .nil))
      ≠ Value.vMap (.cons "a".toList (.vStr "50\\%".toList) .nil) := by
  decide

/-- Claim C2, amended: escaping the mapping with string value
`5 0 backslash percent` yields the value `50\textbackslash` braces `\%`:
the backslash is replaced by the sentinel before any substitution runs, so
the negative lookbehind never sees it, the backslash renders as the literal
backslash sequence, and the following `%` is escaped on its own. -/
theorem c2_amended_result :
    escape_yaml (Value.vMap (.cons "a".toList (.vStr "50\\%".toList) .nil))
      = Value.vMap
          (.cons "a".toList (.vStr "50\\textbackslash\x7b\x7d\\%".toList) .nil) := by
  decide

/-- Claim C3, counterexample: moving the tilde and circumflex substitutions
in front of the other seven is a permutation of the substitution table that
changes the output on the one-character string containing a tilde, because
the tilde replacement itself contains braces that the later brace
substitutions then escape. -/
theorem c3_counterexample :
    List.Perm (LATEX_REPLACEMENTS.drop 7 ++ LATEX_REPLACEMENTS.take 7)
        LATEX_REPLACEMENTS
      ∧ applySubs (LATEX_REPLACEMENTS.drop 7 ++ LATEX_REPLACEMENTS.take 7)
          "~".toList
        ≠ latex_escape "~".toList :=
  ⟨(List.perm_append_comm).trans (by rw [List.take_append_drop]), by decide⟩

/-- Claim C3, amended: among the first seven substitutions of the table
(ampersand, percent, dollar, hash, underscore and the two braces — those
whose replacement is a backslash followed by the character itself), the
relative order does not change the result: any two of them commute on every
input string. The tilde and circumflex substitutions, whose replacements
contain braces, must stay after the brace substitutions. -/
theorem c3_amended_commute :
    ∀ p ∈ LATEX_REPLACEMENTS.take 7, ∀ q ∈ LATEX_REPLACEMENTS.take 7,
      ∀ s : List Char,
        reSub p.1 p.2 (reSub q.1 q.2 s) = reSub q.1 q.2 (reSub p.1 p.2 s) := by
  have hform : ∀ x ∈ LATEX_REPLACEMENTS.take 7, x.2 = ['\\', x.1] := by decide
  have hbs : ∀ x ∈ LATEX_REPLACEMENTS.take 7, x.1 ≠ '\\' := by decide
  have huniq : ∀ x ∈ LATEX_REPLACEMENTS.take 7, ∀ y ∈ LATEX_REPLACEMENTS.take 7,
      x.1 = y.1 → x = y := by decide
  intro p hp q hq s
  by_cases hpq : p.1 = q.1
  · rw [huniq p hp q hq hpq]
  · rw [hform p hp, hform q hq]
    exact subst1_comm p.1 q.1 hpq (hbs p hp) (hbs q hq) s none

/-- Witness for the amended C3 at the ampersand and percent substitutions on
a concrete string. -/
theorem c3_amended_commute_witness :
    reSub '&' "\\&".toList (reSub '%' "\\%".toList "10% & x".toList)
      = reSub '%' "\\%".toList (reSub '&' "\\&".toList "10% & x".toList) :=
  c3_amended_commute ('&', "\\&".toList) (by decide) ('%', "\\%".toList)
    (by decide) "10% & x".toList

/-- Claim C4, counterexample: on the top-level string `C:\path` — a value
that is a string rather than a mapping or sequence — `escape_yaml` never
runs `backslash_escape`, so the sentinel token remains in the output and the
backslash is not rendered as the literal backslash sequence. -/
theorem c4_counterexample :
    escape_yaml (Value.vStr "C:\\path".toList)
        = Value.vStr "C:<<<UNIQUE-BACKSLASH-TOKEN>>>path".toList
      ∧ noTokV (escape_yaml (Value.vStr "C:\\path".toList)) = false := by
  decide

/-- Claim C4, amended: for every value that is a mapping or sequence at top
level and whose mapping keys contain no sentinel token, no occurrence of the
sentinel token remains anywhere after `escape_yaml`; and on the documented
example the backslash renders as the literal backslash sequence:
`escape_yaml` of the mapping `a` to `C:\path` gives `a` to
`C:\textbackslash` braces `path`. A top-level string input, by contrast,
retains the sentinel token. -/
theorem c4_amended_no_token :
    (∀ v : Value, isCont v = true → keysOK v = true →
        noTokV (escape_yaml v) = true)
      ∧ escape_yaml (Value.vMap (.cons "a".toList (.vStr "C:\\path".toList) .nil))
          = Value.vMap
              (.cons "a".toList
                (.vStr "C:\\textbackslash\x7b\x7dpath".toList) .nil) :=
  ⟨fun v hc hk => noTok_escV v hc hk, by decide⟩

/-- Witness for the amended C4 on a concrete sequence holding a string with
a backslash. -/
theorem c4_amended_no_token_witness :
    noTokV (escape_yaml (Value.vSeq (.cons (.vStr "a\\b".toList) .nil)))
      = true :=
  c4_amended_no_token.1 (Value.vSeq (.cons (.vStr "a\\b".toList) .nil))
    (by decide) (by decide)

/-- Claim C5: `escape_yaml` of the mapping `a` to `100% & done` yields the
mapping `a` to `100\% \& done`: each distinct metacharacter is replaced by
its single-backslash escape and all other characters are unchanged. -/
theorem c5_distinct_metachars :
    escape_yaml (Value.vMap (.cons "a".toList (.vStr "100% & done".toList) .nil))
      = Value.vMap
          (.cons "a".toList (.vStr "100\\% \\& done".toList) .nil) := by
  decide

/-- Claim C6: non-string scalar leaves (numbers, booleans, null) pass
through `escape_yaml` unchanged with their type preserved; the documented
mapping of scalars is returned unchanged, and the empty string and empty
containers also pass through unchanged. -/
theorem c6_scalar_passthrough :
    (∀ n : Int, escape_yaml (Value.vInt n) = Value.vInt n)
      ∧ (∀ b : Bool, escape_yaml (Value.vBool b) = Value.vBool b)
      ∧ escape_yaml Value.vNull = Value.vNull
      ∧ escape_yaml (Value.vStr []) = Value.vStr []
      ∧ escape_yaml (Value.vMap .nil) = Value.vMap .nil
      ∧ escape_yaml (Value.vSeq .nil) = Value.vSeq .nil
      ∧ escape_yaml
          (Value.vMap (.cons "age".toList (.vInt 30)
            (.cons "active".toList (.vBool true)
              (.cons "note".toList .vNull .nil))))
          = Value.vMap (.cons "age".toList (.vInt 30)
              (.cons "active".toList (.vBool true)
                (.cons "note".toList .vNull .nil))) :=
  ⟨fun _ => rfl, fun _ => rfl, rfl, by decide, by decide, by decide, by decide⟩

/-- Claim C7: escaping is not idempotent — on the mapping `a` to `100%`,
running `escape_yaml` twice differs from running it once, because the second
run re-escapes the backslash introduced by the first. -/
theorem c7_not_idempotent :
    escape_yaml (escape_yaml
        (Value.vMap (.cons "a".toList (.vStr "100%".toList) .nil)))
      ≠ escape_yaml
          (Value.vMap (.cons "a".toList (.vStr "100%".toList) .nil)) := by
  decide

/-- Claim C8: `escape_yaml` is total over the defined value shapes — the
recursion terminates and returns a value on every finite nested input (it is
a total structurally recursive function of the embedding). -/
theorem c8_total :
    ∀ v : Value, ∃ w : Value, escape_yaml v = w :=
  fun v => ⟨escape_yaml v, rfl⟩

/-- Claim C9: if the external compiler invocation returns a non-zero status,
`main` prints the failure banner and both captured streams and terminates
with exit code 1; on a zero status it prints nothing and terminates
normally. -/
theorem c9_exit_behavior :
    ∀ r : RunResult,
      (r.returncode ≠ 0 →
        (mainAfterCompile r).1 = [compileFailMsg, r.stdout, r.stderr]
          ∧ (mainAfterCompile r).2 = Except.error 1)
      ∧ (r.returncode = 0 →
        (mainAfterCompile r).1 = [] ∧ (mainAfterCompile r).2 = Except.ok ()) := by
  intro r
  constructor
  · intro h
    simp [mainAfterCompile, h]
  · intro h
    simp [mainAfterCompile, h]

/-- Witness for C9 at a failing run and at a succeeding run. -/
theorem c9_exit_behavior_witness :
    ((mainAfterCompile ⟨1, "o".toList, "e".toList⟩).1
        = [compileFailMsg, "o".toList, "e".toList]
      ∧ (mainAfterCompile ⟨1, "o".toList, "e".toList⟩).2 = Except.error 1)
      ∧ ((mainAfterCompile ⟨0, "o".toList, "e".toList⟩).1 = []
        ∧ (mainAfterCompile ⟨0, "o".toList, "e".toList⟩).2 = Except.ok ()) :=
  ⟨(c9_exit_behavior ⟨1, "o".toList, "e".toList⟩).1 (by decide),
   (c9_exit_behavior ⟨0, "o".toList, "e".toList⟩).2 rfl⟩

/-- Claim C10: a backslash-free string leaf that happens to contain the
literal sentinel text is rewritten by `escape_yaml` as if it had contained a
backslash: the occurrence becomes the literal backslash sequence. -/
theorem c10_sentinel_collision :
    hasSub ['\\'] "x<<<UNIQUE-BACKSLASH-TOKEN>>>y".toList = false
      ∧ escape_yaml
          (Value.vMap (.cons "a".toList
            (.vStr "x<<<UNIQUE-BACKSLASH-TOKEN>>>y".toList) .nil))
          = Value.vMap (.cons "a".toList
              (.vStr "x\\textbackslash\x7b\x7dy".toList) .nil) := by
  decide
